import Mathlib

/-!
Verification of the BeepGPT data-preparation pipeline (FineTuning_v1.ipynb).

The notebook ingests chat events, re-keys them by (channel, thread), and for
each event derives:
  * `conversations`  : the last ≤ 20 events collected per entity, shifted
    forward by 1 second (`shift_by(timedelta(seconds=1))`), so the value seen
    when event E is processed is the collect as of `E.ts − 1s`;
  * `reaction_users` / `participating_users` : reactors and authors of the
    last ≤ 100 events inside a trailing 1-second window;
  * `history` : records of (shifted conversation, union of engaged users),
    filtered to non-null shifted conversations.
It then label-encodes the engaged users with sklearn's `LabelEncoder`
(classes = sorted unique labels) and formats prompt/completion strings with
`format_prompt` / `format_completion`.

The temporal operators (`collect`, `shift_by`, `Trailing`) come from the
external Kaskada library; their behaviour is modelled here from the spec's
Window Aggregator (§4.2), with the parameters taken from the notebook.
The encoder (`le`, `format_prompt`, `format_completion`) is translated
directly from the notebook source.
-/

/-- One reaction on a message: an emoji name and the users who reacted with it.
Mirrors the Slack export structure consumed by
`.col("reactions").flatten().col("users").flatten()`. -/
structure Reaction where
  name : String
  users : List String
deriving DecidableEq, Repr

/-- A normalized chat event: the columns of `messages` the notebook uses.
`ts` is the timestamp in seconds. -/
structure RawEvent where
  channel : String
  thread : Option String
  ts : Nat
  user : String
  text : String
  reactions : List Reaction
deriving DecidableEq, Repr

/-- Entity key after `messages.with_key(kt.record({channel, thread}))`:
events are partitioned by channel plus thread identifier. -/
structure EntityKey where
  channel : String
  thread : Option String
deriving DecidableEq, Repr

/-- The entity key of an event. -/
def entityKey (e : RawEvent) : EntityKey := ⟨e.channel, e.thread⟩

/-- Pipeline configuration: shift delay Δ, trailing window W, snapshot bound
K_max, and the engagement-collect bound (all in the notebook's units). -/
structure Config where
  shiftDelay : Nat
  trailingWindow : Nat
  kMax : Nat
  engMax : Nat
deriving DecidableEq, Repr

/-- The notebook's concrete configuration: `shift_by(seconds=1)`,
`Trailing(seconds=1)`, `collect(max=20)` for conversations and
`collect(max=100)` for engagement. -/
def notebookCfg : Config := ⟨1, 1, 20, 100⟩

/-- The last ≤ n elements of a list (what `collect(max=n)` retains). -/
def lastN (n : Nat) (xs : List α) : List α := xs.drop (xs.length - n)

/-- Modelled from the spec: the Window Aggregator's per-entity append-only
buffer. When event number `i` of the stream `evts` is processed, entity `k`'s
buffer is the events of the arrival-order prefix up to `i` whose key is `k`
(entity streams are kept independent by `with_key`). -/
def bufferAt (evts : List RawEvent) (k : EntityKey) (i : Nat) : List RawEvent :=
  (evts.take (i + 1)).filter (fun e => entityKey e == k)

/-- Modelled from the spec: the History Snapshot. The last ≤ K_max events of
the buffer with timestamp ≤ t − Δ (`collect(max=20)` composed with
`shift_by(Δ)`): the shifted conversation visible at time t is the collect as
of t − Δ. In Nat arithmetic `e.ts ≤ t − Δ` is stated as `e.ts + Δ ≤ t`. -/
def snapshotAt (cfg : Config) (buf : List RawEvent) (t : Nat) : List RawEvent :=
  lastN cfg.kMax (buf.filter (fun e => decide (e.ts + cfg.shiftDelay ≤ t)))

/-- Membership test of an event in the trailing window ending at t:
Kaskada's `Trailing(W)` window at time t holds events with timestamp in
(t − W, t]. In Nat arithmetic `t − W < e.ts` is stated as `t < e.ts + W`. -/
def inTrailing (cfg : Config) (t : Nat) (e : RawEvent) : Bool :=
  decide (t < e.ts + cfg.trailingWindow) && decide (e.ts ≤ t)

/-- Modelled from the spec: all buffer events inside the trailing window
ending at t, before the `max=100` bound is applied. -/
def windowEventsAll (cfg : Config) (buf : List RawEvent) (t : Nat) : List RawEvent :=
  buf.filter (inTrailing cfg t)

/-- Modelled from the spec: the events the engagement collects actually see:
the last ≤ 100 (`cfg.engMax`) events of the trailing window. -/
def windowAt (cfg : Config) (buf : List RawEvent) (t : Nat) : List RawEvent :=
  lastN cfg.engMax (windowEventsAll cfg buf t)

/-- The reacting users of one event:
`.col("reactions").flatten().col("users").flatten()` on a single row. -/
def eventReactors (e : RawEvent) : List String :=
  (e.reactions.map Reaction.users).flatten

/-- Source `reaction_users`: reactors of the last ≤ 100 trailing-window events. -/
def reactionUsers (cfg : Config) (buf : List RawEvent) (t : Nat) : List String :=
  ((windowAt cfg buf t).map eventReactors).flatten

/-- Source `participating_users`: authors of the last ≤ 100 trailing-window events. -/
def participatingUsers (cfg : Config) (buf : List RawEvent) (t : Nat) : List String :=
  (windowAt cfg buf t).map RawEvent.user

/-- Order-preserving deduplication keeping the first occurrence of each
element. -/
def dedupKeepFirst : List String → List String
  | [] => []
  | u :: rest => u :: (dedupKeepFirst rest).filter (fun v => !(v == u))

/-- Modelled from the spec: list union with duplicates collapsed, keeping the
order of first appearance (`reaction_users.union(participating_users)`:
elements of the first operand precede new elements of the second). -/
def listUnion (xs ys : List String) : List String :=
  dedupKeepFirst (xs ++ ys)

/-- Source `engaged_users` of the candidate example emitted at time t:
`reaction_users.union(participating_users)`. -/
def engagedUsers (cfg : Config) (buf : List RawEvent) (t : Nat) : List String :=
  listUnion (reactionUsers cfg buf t) (participatingUsers cfg buf t)

/-- One row of `history`: the snapshot (`conversation`) and the engaged
users, together with the entity key and the event whose processing emitted
it. -/
structure TrainingExample where
  key : EntityKey
  trigger : RawEvent
  conversation : List RawEvent
  engaged_users : List String
deriving DecidableEq, Repr

/-- Modelled from the spec: processing of the i-th event of the stream.
Append the event to its entity's buffer, take the snapshot as of
`ts − Δ`, and emit (snapshot, engagement) unless the snapshot is empty
(`.filter(shifted_conversations.is_not_null())`). -/
def stepExample (cfg : Config) (evts : List RawEvent) (i : Nat) : Option TrainingExample :=
  match evts[i]? with
  | none => none
  | some E =>
    let buf := bufferAt evts (entityKey E) i
    let snap := snapshotAt cfg buf E.ts
    if snap.isEmpty then none
    else some ⟨entityKey E, E, snap, engagedUsers cfg buf E.ts⟩

/-- Source `history`: the candidate examples emitted across the whole stream, in
emission order. -/
def history (cfg : Config) (evts : List RawEvent) : List TrainingExample :=
  (List.range evts.length).filterMap (stepExample cfg evts)

/-- Source `history_df.engaged_users.explode()`: the concatenation of all examples'
engaged-user lists. -/
def allEngagedUsers (cfg : Config) (evts : List RawEvent) : List String :=
  ((history cfg evts).map TrainingExample.engaged_users).flatten

/-- Byte-level lexicographic comparison of char lists. -/
def chLe : List Char → List Char → Bool
  | [], _ => true
  | _ :: _, [] => false
  | a :: as, b :: bs =>
    if a.toNat < b.toNat then true
    else if b.toNat < a.toNat then false
    else chLe as bs

/-- Lexicographic comparison of strings (the order `numpy.unique` sorts
labels by). -/
def strLe (a b : String) : Bool := chLe a.data b.data

/-- Insert into a sorted list. -/
def insertSorted (x : String) : List String → List String
  | [] => [x]
  | y :: ys => if strLe x y then x :: y :: ys else y :: insertSorted x ys

/-- Insertion sort by `strLe`. -/
def sortStrings : List String → List String
  | [] => []
  | x :: xs => insertSorted x (sortStrings xs)

/-- Source `le.fit(...)`: sklearn's `LabelEncoder.fit` sets `classes_` to the sorted
unique labels of its input (`numpy.unique`). This is the persisted
vocabulary, index → UserId by position (`le.classes_.tolist()`). -/
def leClasses (cfg : Config) (evts : List RawEvent) : List String :=
  sortStrings (dedupKeepFirst (allEngagedUsers cfg evts))

/-- Source `le.transform` on one label: its index in `classes_`, or `none` for an
unseen label (sklearn raises on unseen labels). -/
def encodeUser (vocab : List String) (u : String) : Option Nat :=
  if u ∈ vocab then some (vocab.indexOf u) else none

/-- Source `le.transform` on a list of labels, failing if any label is unseen. -/
def encodeUsers (vocab : List String) (users : List String) : Option (List Nat) :=
  users.mapM (encodeUser vocab)

/-- Decoding an index through the persisted vocabulary (index → UserId). -/
def decodeIndex (vocab : List String) (i : Nat) : Option String := vocab[i]?

/-- Decoding a list of indices, dropping invalid ones. -/
def decodeIndices (vocab : List String) (idxs : List Nat) : List String :=
  idxs.filterMap (fun i => vocab[i]?)

/-- Source `format_prompt`: `"start -> " + "\n\n".join([f' {user} --> {text} ' ...])
+ "\n\n###\n\n"`. -/
def format_prompt (conversation : List RawEvent) : String :=
  "start -> "
    ++ String.intercalate "\n\n"
        (conversation.map (fun m => " " ++ m.user ++ " --> " ++ m.text ++ " "))
    ++ "\n\n###\n\n"

/-- Source `format_completion`: `" " + (" ".join(le.transform(engaged_users)) if
len(engaged_users) > 0 else "nil") + " end"`; `none` when `le.transform`
raises on an unseen label. -/
def format_completion (vocab : List String) (engaged : List String) : Option String :=
  (if engaged.length > 0 then
      (encodeUsers vocab engaged).map
        (fun idxs => String.intercalate " " (idxs.map toString))
    else some "nil").map
    (fun body => " " ++ body ++ " end")

/-- Source `examples_df`: the prompt/completion pair of every history row, with the
vocabulary fitted on the whole corpus first. -/
def pipelineOutput (cfg : Config) (evts : List RawEvent) : List (String × Option String) :=
  let vocab := leClasses cfg evts
  (history cfg evts).map
    (fun ex => (format_prompt ex.conversation, format_completion vocab ex.engaged_users))

/-- Insert a Nat into a sorted list. -/
def insertSortedNat (x : Nat) : List Nat → List Nat
  | [] => [x]
  | y :: ys => if x ≤ y then x :: y :: ys else y :: insertSortedNat x ys

/-- Insertion sort on Nats, ascending. -/
def sortNats : List Nat → List Nat
  | [] => []
  | x :: xs => insertSortedNat x (sortNats xs)

/-- The spec's wording of completion formatting, for comparison: the indices
are space-joined in sorted (ascending numeric) order. -/
def format_completion_sortedSpec (vocab : List String) (engaged : List String) : Option String :=
  (if engaged.length > 0 then
      (encodeUsers vocab engaged).map
        (fun idxs => String.intercalate " " ((sortNats idxs).map toString))
    else some "nil").map
    (fun body => " " ++ body ++ " end")

/-- The two events of the spec's §8 scenario on entity "ch1". -/
def ev0 : RawEvent := ⟨"ch1", none, 0, "A", "hi", []⟩

/-- Second scenario event: author B, text "hey", reactor C. -/
def ev1 : RawEvent := ⟨"ch1", none, 1, "B", "hey", [⟨"thumbsup", ["C"]⟩]⟩

/-- The scenario stream. -/
def scenarioEvts : List RawEvent := [ev0, ev1]

/-- The example the scenario emits. -/
def scenarioExample : TrainingExample := ⟨⟨"ch1", none⟩, ev1, [ev0], ["C", "B"]⟩

/-! ### Helper lemmas -/

/-- A last-≤-n collect never holds more than n elements. -/
theorem length_lastN_le (n : Nat) (xs : List α) : (lastN n xs).length ≤ n := by
  simp only [lastN, List.length_drop]
  omega

/-- A last-≤-n collect is a sublist of its input. -/
theorem lastN_sublist (n : Nat) (xs : List α) : List.Sublist (lastN n xs) xs :=
  List.drop_sublist _ _

/-- Deduplication does not change membership. -/
theorem mem_dedupKeepFirst {u : String} : ∀ {l : List String},
    u ∈ dedupKeepFirst l ↔ u ∈ l := by
  intro l
  induction l with
  | nil => simp [dedupKeepFirst]
  | cons x rest ih =>
    by_cases hux : u = x
    · subst hux
      simp [dedupKeepFirst]
    · simp only [dedupKeepFirst, List.mem_cons, List.mem_filter, ih,
        Bool.not_eq_true', beq_eq_false_iff_ne, ne_eq]
      tauto

/-- Insertion does not change membership. -/
theorem mem_insertSorted {u x : String} : ∀ {l : List String},
    u ∈ insertSorted x l ↔ u = x ∨ u ∈ l := by
  intro l
  induction l with
  | nil => simp [insertSorted]
  | cons y ys ih =>
    cases hxy : strLe x y with
    | true => simp [insertSorted, hxy]
    | false =>
      simp only [insertSorted, hxy, Bool.false_eq_true, if_false, List.mem_cons, ih]
      tauto

/-- Sorting does not change membership. -/
theorem mem_sortStrings {u : String} : ∀ {l : List String},
    u ∈ sortStrings l ↔ u ∈ l := by
  intro l
  induction l with
  | nil => simp [sortStrings]
  | cons x xs ih =>
    simp only [sortStrings, mem_insertSorted, ih, List.mem_cons]

/-- A user is in the fitted vocabulary exactly when it occurs in some
example's engaged-user list. -/
theorem mem_leClasses {cfg : Config} {evts : List RawEvent} {u : String} :
    u ∈ leClasses cfg evts ↔ u ∈ allEngagedUsers cfg evts := by
  simp only [leClasses, mem_sortStrings, mem_dedupKeepFirst]

/-- Every engaged user of every emitted example is in the fitted
vocabulary: the vocabulary is built from the union of all engagement lists
of the same corpus before any completion is encoded. -/
theorem mem_leClasses_of_mem_history {cfg : Config} {evts : List RawEvent}
    {ex : TrainingExample} {u : String}
    (hex : ex ∈ history cfg evts) (hu : u ∈ ex.engaged_users) :
    u ∈ leClasses cfg evts := by
  rw [mem_leClasses]
  simp only [allEngagedUsers, List.mem_flatten, List.mem_map]
  exact ⟨ex.engaged_users, ⟨ex, hex, rfl⟩, hu⟩

/-- Looking up the index of a present element recovers the element. -/
theorem getElem_opt_indexOf_self {l : List String} {u : String} (h : u ∈ l) :
    l[l.indexOf u]? = some u := by
  have hlt : l.indexOf u < l.length := List.indexOf_lt_length.mpr h
  rw [List.getElem?_eq_getElem hlt]
  simp [List.getElem_indexOf]

/-- When every user is in the vocabulary, `le.transform` succeeds and
returns the indices in input order. -/
theorem encodeUsers_eq_map {vocab : List String} : ∀ {users : List String},
    (∀ u ∈ users, u ∈ vocab) →
    encodeUsers vocab users = some (users.map (fun u => vocab.indexOf u)) := by
  intro users
  induction users with
  | nil => intro _; rfl
  | cons x xs ih =>
    intro h
    have hx : x ∈ vocab := h x (List.mem_cons_self x xs)
    have hxs := ih (fun u hu => h u (List.mem_cons_of_mem x hu))
    unfold encodeUsers at hxs ⊢
    rw [List.mapM_cons, hxs]
    simp [encodeUser, hx]

/-- Decoding the indices of present elements recovers the element list. -/
theorem decodeIndices_indexOf {vocab : List String} : ∀ {users : List String},
    (∀ u ∈ users, u ∈ vocab) →
    decodeIndices vocab (users.map (fun u => vocab.indexOf u)) = users := by
  intro users
  induction users with
  | nil => intro _; rfl
  | cons x xs ih =>
    intro h
    have hx : x ∈ vocab := h x (List.mem_cons_self x xs)
    have hxs := ih (fun u hu => h u (List.mem_cons_of_mem x hu))
    simp only [decodeIndices, List.map_cons, List.filterMap_cons] at *
    rw [getElem_opt_indexOf_self hx, hxs]

/-- Unfolding of a successful processing step: the emitted example is built
from the triggering event's buffer, snapshot and engagement. -/
theorem stepExample_eq_some {cfg : Config} {evts : List RawEvent} {i : Nat}
    {ex : TrainingExample} (h : stepExample cfg evts i = some ex) :
    ∃ E, evts[i]? = some E ∧ ex.trigger = E ∧ ex.key = entityKey E ∧
      ¬ (snapshotAt cfg (bufferAt evts (entityKey E) i) E.ts).isEmpty ∧
      ex.conversation = snapshotAt cfg (bufferAt evts (entityKey E) i) E.ts ∧
      ex.engaged_users = engagedUsers cfg (bufferAt evts (entityKey E) i) E.ts := by
  unfold stepExample at h
  cases hE : evts[i]? with
  | none => rw [hE] at h; exact absurd h (by simp)
  | some E =>
    rw [hE] at h
    simp only at h
    by_cases hs : (snapshotAt cfg (bufferAt evts (entityKey E) i) E.ts).isEmpty
    · rw [if_pos hs] at h
      exact absurd h (by simp)
    · rw [if_neg hs] at h
      refine ⟨E, rfl, ?_, ?_, hs, ?_, ?_⟩ <;>
        (cases h; rfl)

/-- The snapshot is a sublist of the buffer it is taken from. -/
theorem snapshotAt_sublist (cfg : Config) (buf : List RawEvent) (t : Nat) :
    List.Sublist (snapshotAt cfg buf t) buf :=
  (lastN_sublist _ _).trans (List.filter_sublist _)

/-- The per-entity buffer is a sublist of the full stream. -/
theorem bufferAt_sublist (evts : List RawEvent) (k : EntityKey) (i : Nat) :
    List.Sublist (bufferAt evts k i) evts :=
  (List.filter_sublist _).trans (List.take_sublist _ _)

/-- Every event of the per-entity buffer has that entity's key. -/
theorem bufferAt_key {evts : List RawEvent} {k : EntityKey} {i : Nat}
    {e : RawEvent} (h : e ∈ bufferAt evts k i) : entityKey e = k := by
  simp only [bufferAt, List.mem_filter, beq_iff_eq] at h
  exact h.2

/-- Membership in the engagement list, unfolded: exactly the authors and
reactors of the last ≤ `cfg.engMax` trailing-window events. -/
theorem mem_engagedUsers {cfg : Config} {buf : List RawEvent} {t : Nat}
    {u : String} :
    u ∈ engagedUsers cfg buf t ↔
      ∃ e, e ∈ windowAt cfg buf t ∧ (u = e.user ∨ u ∈ eventReactors e) := by
  simp only [engagedUsers, listUnion, mem_dedupKeepFirst, List.mem_append,
    reactionUsers, participatingUsers, List.mem_flatten, List.mem_map]
  constructor
  · rintro (⟨l, ⟨e, he, rfl⟩, hu⟩ | ⟨e, he, rfl⟩)
    · exact ⟨e, he, Or.inr hu⟩
    · exact ⟨e, he, Or.inl rfl⟩
  · rintro ⟨e, he, rfl | hu⟩
    · exact Or.inr ⟨e, he, rfl⟩
    · exact Or.inl ⟨eventReactors e, ⟨e, he, rfl⟩, hu⟩

/-! ### Claim theorems -/

set_option maxRecDepth 10000

/-- C1 counterexample: at the spec's scenario the pipeline's prompt is
"start ->  A --> hi \n\n###\n\n" with TWO spaces after "start ->" (the
f-string's leading space follows the space already ending "start -> "),
not the single-space string the claim asserts. -/
theorem c1_prompt_counterexample :
    (pipelineOutput notebookCfg scenarioEvts).map Prod.fst =
      ["start ->  A --> hi \n\n###\n\n"] ∧
    "start ->  A --> hi \n\n###\n\n" ≠ "start -> A --> hi \n\n###\n\n" := by
  decide

/-- C1 (amended): for the scenario (entity "ch1", events at t=0 by A "hi"
and t=1 by B "hey" with reactor C, Δ=1s, W=1s, K_max=20) processing t=1
emits exactly one example; its snapshot is exactly the t=0 event, its
Engagement Set is exactly {B, C}, its completion lists the indices of B and
C (vocabulary B ↦ 0, C ↦ 1), and its prompt is
"start ->  A --> hi \n\n###\n\n" (two spaces after "start ->"). -/
theorem c1_scenario_amended :
    history notebookCfg scenarioEvts = [scenarioExample] ∧
    scenarioExample.conversation = [ev0] ∧
    scenarioExample.engaged_users.toFinset = ({"B", "C"} : Finset String) ∧
    leClasses notebookCfg scenarioEvts = ["B", "C"] ∧
    List.indexOf "B" (leClasses notebookCfg scenarioEvts) = 0 ∧
    List.indexOf "C" (leClasses notebookCfg scenarioEvts) = 1 ∧
    pipelineOutput notebookCfg scenarioEvts =
      [("start ->  A --> hi \n\n###\n\n", some " 1 0 end")] := by
  decide

/-- C2 counterexample: at the scenario the emitted completion is
" 1 0 end" (index of reactor C first, then index of author B, the order of
the engagement list), while the space-joined ascending-sorted form would be
" 0 1 end": `le.transform` preserves input order and nothing sorts. -/
theorem c2_unsorted_counterexample :
    (pipelineOutput notebookCfg scenarioEvts).map Prod.snd = [some " 1 0 end"] ∧
    format_completion_sortedSpec (leClasses notebookCfg scenarioEvts)
      scenarioExample.engaged_users = some " 0 1 end" ∧
    (some " 1 0 end" : Option String) ≠ some " 0 1 end" := by
  decide

/-- C2 (amended): for every emitted example with a non-empty Engagement
Set, the completion is the space-joined integer vocabulary indices of the
engaged users in the order of the engagement list (reaction users before
newly seen authors), not in sorted order, followed by the end marker
" end". -/
theorem c2_completion_indices_in_engagement_order
    {cfg : Config} {evts : List RawEvent} {ex : TrainingExample}
    (hex : ex ∈ history cfg evts) (hne : ex.engaged_users ≠ []) :
    format_completion (leClasses cfg evts) ex.engaged_users =
      some (" " ++ String.intercalate " "
        ((ex.engaged_users.map (fun u => (leClasses cfg evts).indexOf u)).map toString)
        ++ " end") := by
  have hmem : ∀ u ∈ ex.engaged_users, u ∈ leClasses cfg evts :=
    fun u hu => mem_leClasses_of_mem_history hex hu
  have hlen : ex.engaged_users.length > 0 := List.length_pos.mpr hne
  unfold format_completion
  rw [if_pos hlen, encodeUsers_eq_map hmem]
  rfl

/-- Witness for C2's amended theorem at the scenario input. -/
theorem c2_completion_order_witness :
    scenarioExample ∈ history notebookCfg scenarioEvts ∧
    scenarioExample.engaged_users ≠ [] ∧
    format_completion (leClasses notebookCfg scenarioEvts) scenarioExample.engaged_users =
      some (" " ++ String.intercalate " "
        ((scenarioExample.engaged_users.map
          (fun u => (leClasses notebookCfg scenarioEvts).indexOf u)).map toString)
        ++ " end") :=
  ⟨by decide, by decide,
    c2_completion_indices_in_engagement_order (by decide) (by decide)⟩

/-- C3: for every emitted example, encoding its Engagement Set through the
vocabulary persisted with the corpus succeeds, and decoding the resulting
indices (index → UserId) recovers the original engagement list exactly, so
in particular the same set of users. -/
theorem c3_round_trip {cfg : Config} {evts : List RawEvent} {ex : TrainingExample}
    (hex : ex ∈ history cfg evts) :
    ∃ idxs, encodeUsers (leClasses cfg evts) ex.engaged_users = some idxs ∧
      decodeIndices (leClasses cfg evts) idxs = ex.engaged_users ∧
      (decodeIndices (leClasses cfg evts) idxs).toFinset = ex.engaged_users.toFinset := by
  have hmem : ∀ u ∈ ex.engaged_users, u ∈ leClasses cfg evts :=
    fun u hu => mem_leClasses_of_mem_history hex hu
  refine ⟨ex.engaged_users.map (fun u => (leClasses cfg evts).indexOf u),
    encodeUsers_eq_map hmem, decodeIndices_indexOf hmem, ?_⟩
  rw [decodeIndices_indexOf hmem]

/-- Witness for C3 at the scenario input. -/
theorem c3_round_trip_witness :
    scenarioExample ∈ history notebookCfg scenarioEvts ∧
    ∃ idxs,
      encodeUsers (leClasses notebookCfg scenarioEvts) scenarioExample.engaged_users
        = some idxs ∧
      decodeIndices (leClasses notebookCfg scenarioEvts) idxs
        = scenarioExample.engaged_users ∧
      (decodeIndices (leClasses notebookCfg scenarioEvts) idxs).toFinset
        = scenarioExample.engaged_users.toFinset :=
  ⟨by decide, c3_round_trip (by decide)⟩

/-- C4: when the snapshot at the shifted time is empty, processing that
event emits nothing (the candidate is filtered out by
`.filter(shifted_conversations.is_not_null())`), with no error. -/
theorem c4_empty_snapshot_emits_nothing {cfg : Config} {evts : List RawEvent}
    {i : Nat} {E : RawEvent} (hE : evts[i]? = some E)
    (hempty : snapshotAt cfg (bufferAt evts (entityKey E) i) E.ts = []) :
    stepExample cfg evts i = none := by
  unfold stepExample
  rw [hE]
  simp [hempty]

/-- Witness for C4: a stream with a single event has an empty snapshot at
the shifted time (the event itself lies after the shift cutoff), so no
example at all is produced. -/
theorem c4_empty_snapshot_witness :
    (([ev1] : List RawEvent)[0]? = some ev1) ∧
    snapshotAt notebookCfg (bufferAt [ev1] (entityKey ev1) 0) ev1.ts = [] ∧
    stepExample notebookCfg [ev1] 0 = none ∧
    history notebookCfg [ev1] = [] :=
  ⟨by decide, by decide,
    @c4_empty_snapshot_emits_nothing notebookCfg [ev1] 0 ev1 (by decide) (by decide),
    by decide⟩

/-- C5: on an empty Engagement Set the completion is the sentinel token
"nil" between the leading space and the end marker " end", and is never
the empty string. -/
theorem c5_empty_engagement_sentinel (vocab : List String) :
    format_completion vocab [] = some (" " ++ "nil" ++ " end") ∧
    (" " ++ "nil" ++ " end") = " nil end" ∧ " nil end" ≠ "" := by
  exact ⟨rfl, rfl, by decide⟩

/-- C6: every emitted example's snapshot has at most K_max = 20 events and,
provided the stream is delivered in chronological (non-decreasing
timestamp) order, the snapshot is chronologically non-decreasing. -/
theorem c6_snapshot_bounded_and_sorted {evts : List RawEvent} {i : Nat}
    {ex : TrainingExample}
    (hsorted : List.Pairwise (fun a b => a.ts ≤ b.ts) evts)
    (hstep : stepExample notebookCfg evts i = some ex) :
    ex.conversation.length ≤ 20 ∧
      List.Pairwise (fun a b => a.ts ≤ b.ts) ex.conversation := by
  obtain ⟨E, hE, htrig, hkey, hne, hconv, heng⟩ := stepExample_eq_some hstep
  rw [hconv]
  constructor
  · exact length_lastN_le _ _
  · exact hsorted.sublist
      ((snapshotAt_sublist _ _ _).trans (bufferAt_sublist _ _ _))

/-- Witness for C6 at the scenario input. -/
theorem c6_snapshot_witness :
    List.Pairwise (fun a b => a.ts ≤ b.ts) scenarioEvts ∧
    stepExample notebookCfg scenarioEvts 1 = some scenarioExample ∧
    (scenarioExample.conversation.length ≤ 20 ∧
      List.Pairwise (fun a b => a.ts ≤ b.ts) scenarioExample.conversation) :=
  ⟨by decide, by decide,
    @c6_snapshot_bounded_and_sorted scenarioEvts 1 scenarioExample
      (by decide) (by decide)⟩

/-- C7: every event of an emitted example's snapshot carries the same
entity key (channel plus thread) as the event whose processing emitted it;
snapshots never mix entity streams. -/
theorem c7_snapshot_same_entity {cfg : Config} {evts : List RawEvent} {i : Nat}
    {ex : TrainingExample} (hstep : stepExample cfg evts i = some ex) :
    (∀ e ∈ ex.conversation, entityKey e = ex.key) ∧
    ex.key = entityKey ex.trigger := by
  obtain ⟨E, hE, htrig, hkey, hne, hconv, heng⟩ := stepExample_eq_some hstep
  refine ⟨fun e he => ?_, by rw [hkey, htrig]⟩
  rw [hconv] at he
  rw [hkey]
  exact bufferAt_key ((snapshotAt_sublist _ _ _).subset he)

/-- Witness for C7 at the scenario input. -/
theorem c7_snapshot_same_entity_witness :
    stepExample notebookCfg scenarioEvts 1 = some scenarioExample ∧
    ((∀ e ∈ scenarioExample.conversation, entityKey e = scenarioExample.key) ∧
      scenarioExample.key = entityKey scenarioExample.trigger) :=
  ⟨by decide,
    @c7_snapshot_same_entity notebookCfg scenarioEvts 1 scenarioExample (by decide)⟩

/-- C8: the pipeline is a deterministic function of its input events and
configuration: two runs on equal inputs produce byte-identical
prompt/completion lists. -/
theorem c8_deterministic (cfg1 cfg2 : Config) (evts1 evts2 : List RawEvent)
    (hc : cfg1 = cfg2) (he : evts1 = evts2) :
    pipelineOutput cfg1 evts1 = pipelineOutput cfg2 evts2 := by
  rw [hc, he]

/-- Witness for C8: two runs on the scenario input agree, on the concrete
output value. -/
theorem c8_deterministic_witness :
    pipelineOutput notebookCfg scenarioEvts = pipelineOutput notebookCfg scenarioEvts ∧
    pipelineOutput notebookCfg scenarioEvts =
      [("start ->  A --> hi \n\n###\n\n", some " 1 0 end")] :=
  ⟨c8_deterministic _ _ _ _ rfl rfl, by decide⟩

/-- C9: the vocabulary is fitted on the union of all engagement lists of
the same corpus before any completion is encoded, so the unseen-label
branch of `le.transform` is unreachable: every engaged user of every
emitted example has an index in the vocabulary and encoding succeeds. -/
theorem c9_no_unknown_user {cfg : Config} {evts : List RawEvent}
    {ex : TrainingExample} (hex : ex ∈ history cfg evts) :
    (∀ u ∈ ex.engaged_users, u ∈ leClasses cfg evts ∧
      encodeUser (leClasses cfg evts) u = some ((leClasses cfg evts).indexOf u)) ∧
    (encodeUsers (leClasses cfg evts) ex.engaged_users).isSome := by
  have hmem : ∀ u ∈ ex.engaged_users, u ∈ leClasses cfg evts :=
    fun u hu => mem_leClasses_of_mem_history hex hu
  refine ⟨fun u hu => ⟨hmem u hu, ?_⟩, ?_⟩
  · simp [encodeUser, hmem u hu]
  · rw [encodeUsers_eq_map hmem]
    rfl

/-- Witness for C9 at the scenario input. -/
theorem c9_no_unknown_user_witness :
    scenarioExample ∈ history notebookCfg scenarioEvts ∧
    ((∀ u ∈ scenarioExample.engaged_users, u ∈ leClasses notebookCfg scenarioEvts ∧
        encodeUser (leClasses notebookCfg scenarioEvts) u =
          some ((leClasses notebookCfg scenarioEvts).indexOf u)) ∧
      (encodeUsers (leClasses notebookCfg scenarioEvts)
        scenarioExample.engaged_users).isSome) :=
  ⟨by decide, c9_no_unknown_user (by decide)⟩

/-- C10: the Engagement Set is computed from at most the 100 most recent
events of the trailing window (`collect(window=Trailing(1s), max=100)`): a
user is engaged exactly when they author or react in one of the last ≤ 100
window events, and a user appearing only in older window events is
excluded even though those events lie inside the trailing window. -/
theorem c10_engagement_from_last_100 (buf : List RawEvent) (t : Nat) (u : String) :
    (windowAt notebookCfg buf t).length ≤ 100 ∧
    (u ∈ engagedUsers notebookCfg buf t ↔
      ∃ e, e ∈ lastN 100 (windowEventsAll notebookCfg buf t) ∧
        (u = e.user ∨ u ∈ eventReactors e)) ∧
    ((∀ e ∈ lastN 100 (windowEventsAll notebookCfg buf t),
        u ≠ e.user ∧ u ∉ eventReactors e) →
      u ∉ engagedUsers notebookCfg buf t) := by
  refine ⟨length_lastN_le _ _, mem_engagedUsers, fun hall hu => ?_⟩
  obtain ⟨e, he, hcase⟩ := mem_engagedUsers.mp hu
  rcases hcase with h1 | h2
  · exact (hall e he).1 h1
  · exact (hall e he).2 h2

/-- One of the 101 identically timed events of the C10 witness buffer. -/
def crowdEvent (u : String) : RawEvent := ⟨"c", none, 5, u, "m", []⟩

/-- A buffer of 101 events inside the trailing window ending at t = 5: the
oldest authored by "z", the 100 most recent by "a". -/
def crowdedBuf : List RawEvent :=
  crowdEvent "z" :: List.replicate 100 (crowdEvent "a")

/-- Witness for C10: "z" authors an event inside the trailing window, but
that event is older than the 100 most recent window events, so "z" is not
engaged. -/
theorem c10_engagement_witness :
    ("z" ∉ engagedUsers notebookCfg crowdedBuf 5) ∧
    (∃ e, e ∈ windowEventsAll notebookCfg crowdedBuf 5 ∧ "z" = e.user) :=
  ⟨(c10_engagement_from_last_100 crowdedBuf 5 "z").2.2 (by decide), by decide⟩
